import Mathlib

/-!
Verification of the backtesting core (`src/engine.py`, `src/strategy.py`,
`src/regimes.py`, `src/monte_carlo.py`) of the `trade` repository.

Python floats are modelled as rationals (`ℚ`); quantities that the code
obtains through `sqrt`/`log` are modelled over `ℝ`, with exact rational
decision procedures (`qltSqrt`, `sqrtLtQ`) for the square-root comparisons
the strategy performs, proved correct against the `ℝ` semantics.
-/

namespace TradeSpec

/-- `np.mean` / `sum(l)/len(l)` on a rational list (0 on the empty list,
which the code never hits on the paths modelled here). -/
def listMean (l : List ℚ) : ℚ := l.sum / l.length

/-- Population variance, the square of `np.std(l)` (ddof = 0). -/
def popVar (l : List ℚ) : ℚ :=
  ((l.map (fun x => (x - listMean l) ^ 2)).sum) / l.length

/-- Sample variance, the square of `pd.Series(l).std()` (ddof = 1).
pandas yields NaN for fewer than two observations; this model is only
used where the list has length ≥ 2. -/
def sampleVar (l : List ℚ) : ℚ :=
  if l.length ≤ 1 then 0
  else ((l.map (fun x => (x - listMean l) ^ 2)).sum) / ((l.length - 1 : ℕ) : ℚ)

/-- Python slice `l[-n:]` (the trailing `n` elements). -/
def trailing (n : ℕ) (l : List ℚ) : List ℚ := l.drop (l.length - n)

/-- `np.diff(p) / p[:-1]`: consecutive simple returns. -/
def simpleReturns (l : List ℚ) : List ℚ :=
  List.zipWith (fun a b => (b - a) / a) l l.tail

/-- Exact rational decision of `a < c * Real.sqrt d` (for `0 ≤ d`). -/
def qltSqrt (a c d : ℚ) : Bool :=
  if 0 ≤ c then (if a < 0 then true else decide (a ^ 2 < c ^ 2 * d))
  else (if 0 ≤ a then false else decide (c ^ 2 * d < a ^ 2))

/-- Exact rational decision of `c * Real.sqrt d < a` (for `0 ≤ d`). -/
def sqrtLtQ (c d a : ℚ) : Bool :=
  if 0 ≤ c then (if a ≤ 0 then false else decide (c ^ 2 * d < a ^ 2))
  else (if 0 < a then true else decide (a ^ 2 < c ^ 2 * d))

/-! ## BacktestEngine (src/engine.py)

`BacktestEngine._worker` processes the bars of one symbol.  The per-bar decision of the strategy enters the worker only through the integer `signal`, so the
worker is embedded as a step function parameterised by the signal.  All
trading state the worker touches (`self.capital`, `self.trades`,
`self.equity_curve`) lives in one engine-wide `EngineState`; the per-symbol
`LiveState` mirrors the dataclass of engine.py (its `shares` field is read on
sells but never written by the engine). -/

inductive TradeType
  | buy
  | sell
deriving DecidableEq

structure TradeRec where
  ttype : TradeType
  price : ℚ
  date : ℕ
  symbol : String
  shares : ℚ
  /-- `cost` for buys, `proceeds` for sells. -/
  amount : ℚ
deriving DecidableEq

/-- The `LiveState` dataclass (engine.py lines 7-15).  `shares` is annotated
`int` in the source but the annotation is not enforced; it is modelled as ℚ. -/
structure LiveState where
  history : List ℚ := []
  entry_mean : ℚ := 0
  entry_std : ℚ := 0
  pos : ℤ := 0
  entry_price : ℚ := 0
  cooldown : ℤ := 0
  shares : ℚ := 0
deriving DecidableEq

/-- The engine-wide mutable state shared by all workers. -/
structure EngineState where
  capital : ℚ
  trades : List TradeRec := []
  equity_curve : List (ℕ × ℚ) := []
deriving DecidableEq

namespace BacktestEngine

/-- Buy-side allocation, engine.py line 118:
`initial_capital / (len(self.symbols) // 2) if len(self.symbols) > 1 else initial_capital`. -/
def allocation (initial_capital : ℚ) (nSymbols : ℕ) : ℚ :=
  if 1 < nSymbols then initial_capital / ((nSymbols / 2 : ℕ) : ℚ) else initial_capital

/-- The even split described by the spec: `initialCapital / symbolCount`.
This follows the words of the spec and is kept for comparison with `allocation`. -/
def specEvenAllocation (initial_capital : ℚ) (nSymbols : ℕ) : ℚ :=
  initial_capital / (nSymbols : ℚ)

/-- One iteration of the bar loop of `BacktestEngine._worker`
(engine.py lines 107-163): execute the signal against the shared capital,
record the trade, then append `(timestamp, self.capital)` to the equity curve. -/
def workerStep (initial_capital : ℚ) (nSymbols : ℕ) (symbol : String)
    (st : EngineState × LiveState) (timestamp : ℕ) (close : ℚ) (signal : ℤ) :
    EngineState × LiveState :=
  let es := st.1
  let live := st.2
  let es' :=
    if signal = 1 then
      let alloc := allocation initial_capital nSymbols
      let trade_amt := min es.capital alloc
      { es with
        capital := es.capital - trade_amt
        trades := es.trades ++ [⟨.buy, close, timestamp, symbol, trade_amt / close, trade_amt⟩] }
    else if signal = -1 then
      let proceeds := live.shares * close
      { es with
        capital := es.capital + proceeds
        trades := es.trades ++ [⟨.sell, close, timestamp, symbol, live.shares, proceeds⟩] }
    else es
  ({ es' with equity_curve := es'.equity_curve ++ [(timestamp, es'.capital)] }, live)

/-- `BacktestEngine._worker` over the whole bar list of one symbol; each bar
is a `(timestamp, close, signal)` triple. -/
def worker (initial_capital : ℚ) (nSymbols : ℕ) (symbol : String)
    (st : EngineState × LiveState) : List (ℕ × ℚ × ℤ) → EngineState × LiveState
  | [] => st
  | b :: bs =>
      worker initial_capital nSymbols symbol
        (workerStep initial_capital nSymbols symbol st b.1 b.2.1 b.2.2) bs

/-- Equity-curve consolidation in `BacktestEngine.run` (engine.py lines 93-95):
`pd.DataFrame(equity_curve).set_index(..).groupby(level=0).last()` —
for each timestamp (in sorted order) keep the LAST equity value appended. -/
def consolidate (eq : List (ℕ × ℚ)) : List (ℕ × ℚ) :=
  (List.insertionSort (· ≤ ·) ((eq.map Prod.fst).dedup)).map
    (fun t => (t, ((eq.filter (fun q => q.1 = t)).map Prod.snd).getLastD 0))

/-- The consolidation the spec describes: per-timestamp SUM across workers.
This follows the words of the spec and is kept for comparison with `consolidate`. -/
def specConsolidateSum (eq : List (ℕ × ℚ)) : List (ℕ × ℚ) :=
  (List.insertionSort (· ≤ ·) ((eq.map Prod.fst).dedup)).map
    (fun t => (t, ((eq.filter (fun q => q.1 = t)).map Prod.snd).sum))

/-- Cost of a trade when it is a buy, else 0. -/
def buyCost (t : TradeRec) : ℚ := if t.ttype = .buy then t.amount else 0

/-- Proceeds of a trade when it is a sell, else 0. -/
def sellProceeds (t : TradeRec) : ℚ := if t.ttype = .sell then t.amount else 0

end BacktestEngine

/-! ## Market-state enums (src/regimes.py, src/trends.py) -/

inductive VolatilityRegime
  | low
  | normal
  | high
  | extreme
deriving DecidableEq

inductive TrendDirection
  | down
  | flat
  | up
deriving DecidableEq

/-- Exceptions the embedded Python code can raise. -/
inductive PyError
  | attributeError
deriving DecidableEq

instance {ε α : Type} [DecidableEq ε] [DecidableEq α] : DecidableEq (Except ε α) := fun x y =>
  match x, y with
  | .error a, .error b =>
      if h : a = b then .isTrue (by rw [h]) else .isFalse (by simp [h])
  | .ok a, .ok b =>
      if h : a = b then .isTrue (by rw [h]) else .isFalse (by simp [h])
  | .error _, .ok _ => .isFalse (by simp)
  | .ok _, .error _ => .isFalse (by simp)

/-- `np.percentile(xs, p)` with the default linear interpolation
(exact for `p` in `[0, 100]`). -/
noncomputable def npPercentile (xs : List ℝ) (p : ℚ) : ℝ :=
  let sorted := List.insertionSort (· ≤ ·) xs
  let n := sorted.length
  let h : ℝ := (p : ℝ) / 100 * ((n : ℝ) - 1)
  let i : ℕ := ⌊h⌋.toNat
  let lo := sorted.getD i 0
  let hi := sorted.getD (min (i + 1) (n - 1)) 0
  lo + (h - (i : ℝ)) * (hi - lo)

/-! ## RegimeDetector (src/regimes.py) -/

namespace RegimeDetector

/-- The method names defined by `class RegimeDetector`
(src/regimes.py lines 12-138).  Note there is no `calculate`. -/
def methods : List String :=
  ["__init__", "on_bar", "get_regime", "get_volatility", "get_percentile",
   "get_regime_stats", "_get_regime_description"]

structure Cfg where
  lookback_window : ℕ := 390
  regime_window : ℕ := 20
deriving DecidableEq

/-- regimes.py lines 56-58: the trailing `regime_window + 1` closes and their
simple returns `np.diff(prices) / prices[:-1]`. -/
def regimeReturns (regime_window : ℕ) (history : List ℚ) : List ℚ :=
  simpleReturns (trailing (regime_window + 1) history)

/-- regimes.py line 62: `np.std(returns) * np.sqrt(252 * 390)`. -/
noncomputable def currentVol (regime_window : ℕ) (history : List ℚ) : ℝ :=
  Real.sqrt (popVar (regimeReturns regime_window history)) * Real.sqrt (252 * 390)

/-- `pd.Series(rets).rolling(window=w).std().dropna()` (regimes.py lines
78-80 before annualization): the sample standard deviation of every window
of `w` consecutive returns. -/
noncomputable def rollingStd (w : ℕ) (rets : List ℚ) : List ℝ :=
  if rets.length < w then []
  else (List.range (rets.length - w + 1)).map
    (fun i => Real.sqrt (sampleVar ((rets.drop i).take w)))

/-- `RegimeDetector.on_bar` (regimes.py lines 38-102) for one symbol, where
`history` already includes the new close.  Returns the regime together with
the `current_volatility` the call stores (`none` when it returns before
computing it). -/
noncomputable def onBar (cfg : Cfg) (history : List ℚ) : VolatilityRegime × Option ℝ :=
  if history.length < cfg.regime_window + 1 then (.normal, none)
  else
    let current_vol := currentVol cfg.regime_window history
    if history.length < cfg.lookback_window then (.normal, some current_vol)
    else
      let all_returns := simpleReturns (trailing cfg.lookback_window history)
      let historical_vols :=
        (rollingStd cfg.regime_window all_returns).map (· * Real.sqrt (252 * 390))
      let p25 := npPercentile historical_vols 25
      let p75 := npPercentile historical_vols 75
      let p90 := npPercentile historical_vols 90
      if current_vol < p25 then (.low, some current_vol)
      else if current_vol < p75 then (.normal, some current_vol)
      else if current_vol < p90 then (.high, some current_vol)
      else (.extreme, some current_vol)

/-- The return computation the spec attributes to the volatility regime
classifier: log returns, falling back to simple returns only when some price
is ≤ 0.  This follows the words of the spec, for comparison with `regimeReturns`. -/
noncomputable def specLogReturns (regime_window : ℕ) (history : List ℚ) : List ℝ :=
  let prices := trailing (regime_window + 1) history
  if prices.all (fun p => decide (0 < p)) then
    List.zipWith (fun a b => Real.log ((b : ℝ) / (a : ℝ))) prices prices.tail
  else (simpleReturns prices).map (fun q => (q : ℝ))

end RegimeDetector

/-! ## BuyLow strategy (src/strategy.py) -/

structure BuyLowCfg where
  entry_factor : ℚ := 3
  exit_factor : ℚ := 2
  stop_loss : ℚ := 3
  timeframe_minutes : ℕ := 390
  use_regime : Bool := true
  regime_adjust : Bool := true
  use_trend : Bool := true
deriving DecidableEq

/-- The per-symbol state `BuyLow.on_bar` reads and writes (strategy.py
lines 80-100).  `entry_var` holds the square of the `entry_std` of the source
(so that the divisions by `entry_std` in the source can be decided exactly);
the unused `day_high` field is omitted. -/
structure SymbolState where
  history : List ℚ := []
  entry_price : ℚ := 100000000
  pos : ℤ := 0
  entry_var : ℚ := 0
  cooldown : ℤ := 0
  current_regime : VolatilityRegime := .normal
  current_trend : TrendDirection := .flat
deriving DecidableEq

namespace BuyLow

/-- `self.history[symbol][-self.timeframe_minutes-1:-1]` (strategy.py
line 121): the `timeframe_minutes` closes preceding the current one. -/
def lookbackPrices (cfg : BuyLowCfg) (history : List ℚ) : List ℚ :=
  trailing cfg.timeframe_minutes history.dropLast

/-- Regime-based threshold scaling (strategy.py lines 135-158), excluding the
EXTREME-while-flat early return, which `onBarCore` performs.  Returns
`(entry, exit, stop-loss)` thresholds. -/
def adjustedThresholds (cfg : BuyLowCfg) (regime : VolatilityRegime) : ℚ × ℚ × ℚ :=
  if cfg.regime_adjust && cfg.use_regime then
    match regime with
    | .low => (cfg.entry_factor * (7 / 10), cfg.exit_factor * (8 / 10), cfg.stop_loss * (8 / 10))
    | .high => (cfg.entry_factor * (13 / 10), cfg.exit_factor * (12 / 10), cfg.stop_loss * (12 / 10))
    | .extreme => (cfg.entry_factor, cfg.exit_factor * (3 / 2), cfg.stop_loss * (3 / 2))
    | .normal => (cfg.entry_factor, cfg.exit_factor, cfg.stop_loss)
  else (cfg.entry_factor, cfg.exit_factor, cfg.stop_loss)

/-- The decision body of `BuyLow.on_bar` (strategy.py lines 120-196), taking
the post-append history and the already-updated regime/trend classifications
in `st`.  `popVar lookback` is the square of the
value `std_dev = np.std(lookback_prices)` of the source, so `std_dev < 1e-6` is `var < 1e-12`,
and the z-score and entry-std divisions of the source become exact square-root
comparisons through `qltSqrt`/`sqrtLtQ`. -/
def onBarCore (cfg : BuyLowCfg) (st : SymbolState) : ℤ × SymbolState :=
  let lookback := lookbackPrices cfg st.history
  let current_price := st.history.getLastD 0
  let mean_price := listMean lookback
  let var := popVar lookback
  if var < 1 / 1000000000000 then (0, st)
  else
    let thresholds := adjustedThresholds cfg st.current_regime
    let entry_threshold := thresholds.1
    let exit_threshold := thresholds.2.1
    let stop_loss_threshold := thresholds.2.2
    if cfg.regime_adjust && cfg.use_regime &&
        decide (st.current_regime = .extreme) && decide (st.pos = 0) then
      (0, st)
    else
      let st := { st with cooldown := st.cooldown - 1 }
      if st.pos = 1 ∧
          qltSqrt (current_price - st.entry_price) (-stop_loss_threshold) st.entry_var = true then
        (-1, { st with pos := 0 })
      else if st.pos = 1 ∧
          sqrtLtQ exit_threshold st.entry_var (current_price - st.entry_price) = true then
        (-1, { st with pos := 0 })
      else if cfg.use_trend = true ∧ st.current_trend = .down then
        (0, st)
      else if st.pos = 0 ∧
          qltSqrt (current_price - mean_price) (-entry_threshold) var = true ∧
          st.cooldown ≤ 0 then
        (1, { st with pos := 1, entry_price := current_price, entry_var := var, cooldown := 30 })
      else (0, st)

/-- `BuyLow.on_bar` (strategy.py lines 103-196).  The trend computation
(`TrendDetector.calculate`, a method that exists) is abstracted by the
oracle `trendOf`; no claim depends on its value.  When `use_regime` is set
the source evaluates `self.regime_detector.calculate(...)` and
`RegimeDetector` defines no method `calculate` (see
`RegimeDetector.methods`), so the attribute lookup raises `AttributeError`. -/
def onBar (cfg : BuyLowCfg) (trendOf : List ℚ → TrendDirection)
    (st : SymbolState) (close : ℚ) : Except PyError (ℤ × SymbolState) :=
  let history := st.history ++ [close]
  let st1 := { st with history := history }
  if history.length ≤ cfg.timeframe_minutes then .ok (0, st1)
  else if cfg.use_regime then .error .attributeError
  else
    let st2 := if cfg.use_trend then { st1 with current_trend := trendOf history } else st1
    .ok (onBarCore cfg st2)

end BuyLow

/-! ## MonteCarloSimulator (src/monte_carlo.py) -/

namespace MonteCarloSimulator

inductive MCError
  | invalidParameter
deriving DecidableEq

/-- `self.returns.std()` (pandas, ddof = 1). -/
noncomputable def sampleStd (l : List ℚ) : ℝ := Real.sqrt (sampleVar l)

/-- One cell of `np.random.normal(mean, std, (num_days, num_simulations))`
(monte_carlo.py line 126): numpy draws `loc + scale * z` with `z` a standard
normal variate; the draws are abstracted by the oracle `z`. -/
noncomputable def randomReturn (returns : List ℚ) (z : ℕ → ℕ → ℝ) (day sim : ℕ) : ℝ :=
  (listMean returns : ℝ) + sampleStd returns * z day sim

/-- Entry `(day, sim)` of `_run_standard` (monte_carlo.py lines 118-132):
`(1 + random_returns).cumprod(axis=0) * initial_value`. -/
noncomputable def pathValue (returns : List ℚ) (z : ℕ → ℕ → ℝ) (initial_value : ℝ)
    (day sim : ℕ) : ℝ :=
  initial_value * ∏ k ∈ Finset.range (day + 1), (1 + randomReturn returns z k sim)

/-- `final_values = simulations[-1, :]` after `run()` (monte_carlo.py
line 114), in the standard (non-regime) mode. -/
noncomputable def finalValues (returns : List ℚ) (z : ℕ → ℕ → ℝ)
    (initial_value : ℝ) (num_days num_simulations : ℕ) : List ℝ :=
  (List.range num_simulations).map (pathValue returns z initial_value (num_days - 1))

/-- `get_percentiles` (monte_carlo.py lines 170-189) after `run()`: checks
`0 <= p <= 100` for each requested percentile, erroring at the first invalid
one exactly as the source loop raises `ValueError` there. -/
noncomputable def getPercentiles (final_values : List ℝ) :
    List ℚ → Except MCError (List (ℚ × ℝ))
  | [] => .ok []
  | p :: ps =>
      if ¬(0 ≤ p ∧ p ≤ 100) then .error .invalidParameter
      else
        match getPercentiles final_values ps with
        | .error e => .error e
        | .ok rest => .ok ((p, npPercentile final_values p) :: rest)

/-- `get_confidence_interval` (monte_carlo.py lines 191-214). -/
noncomputable def getConfidenceInterval (final_values : List ℝ) (confidence : ℚ) :
    Except MCError (ℝ × ℝ) :=
  if ¬(0 < confidence ∧ confidence < 1) then .error .invalidParameter
  else
    let alpha := 1 - confidence
    .ok (npPercentile final_values (alpha / 2 * 100),
         npPercentile final_values ((1 - alpha / 2) * 100))

/-- `calculate_var` (monte_carlo.py lines 216-243). -/
noncomputable def calculateVar (final_values : List ℝ) (initial_value : ℝ)
    (confidence : ℚ) : Except MCError ℝ :=
  if ¬(0 < confidence ∧ confidence < 1) then .error .invalidParameter
  else .ok (max 0 (initial_value - npPercentile final_values ((1 - confidence) * 100)))

/-- `calculate_cvar` (monte_carlo.py lines 245-279). -/
noncomputable def calculateCvar (final_values : List ℝ) (initial_value : ℝ)
    (confidence : ℚ) : Except MCError ℝ :=
  if ¬(0 < confidence ∧ confidence < 1) then .error .invalidParameter
  else
    let var_threshold := npPercentile final_values ((1 - confidence) * 100)
    let tail_values := final_values.filter (fun v => decide (v ≤ var_threshold))
    if tail_values.length = 0 then .ok 0
    else .ok (max 0 (initial_value - tail_values.sum / tail_values.length))

end MonteCarloSimulator

/-! ## Theorems -/

theorem qltSqrt_iff (a c d : ℚ) (hd : 0 ≤ d) :
    qltSqrt a c d = true ↔ (a : ℝ) < c * Real.sqrt d := by
  have hs : 0 ≤ Real.sqrt (d : ℝ) := Real.sqrt_nonneg _
  have hsq : Real.sqrt (d : ℝ) ^ 2 = (d : ℝ) := Real.sq_sqrt (by exact_mod_cast hd)
  unfold qltSqrt
  by_cases hc : (0 : ℚ) ≤ c
  · by_cases ha : a < (0 : ℚ)
    · simp only [hc, if_true, ha]
      have : (a : ℝ) < 0 := by exact_mod_cast ha
      have : (a : ℝ) < c * Real.sqrt d := by
        have hcr : (0 : ℝ) ≤ (c : ℝ) := by exact_mod_cast hc
        nlinarith
      simp [this]
    · simp only [hc, if_true, ha, if_false]
      have har : (0 : ℝ) ≤ (a : ℝ) := by
        have := not_lt.mp ha; exact_mod_cast this
      have hcr : (0 : ℝ) ≤ (c : ℝ) := by exact_mod_cast hc
      constructor
      · intro h
        have h' : (a : ℝ) ^ 2 < (c : ℝ) ^ 2 * d := by
          have := of_decide_eq_true h; exact_mod_cast this
        nlinarith [mul_nonneg hcr hs]
      · intro h
        apply decide_eq_true
        have h' : (a : ℝ) ^ 2 < (c : ℝ) ^ 2 * d := by nlinarith
        exact_mod_cast h'
  · have hcr : (c : ℝ) < 0 := by
      have := not_le.mp hc; exact_mod_cast this
    by_cases ha : (0 : ℚ) ≤ a
    · simp only [hc, if_false, ha, if_true]
      have har : (0 : ℝ) ≤ (a : ℝ) := by exact_mod_cast ha
      constructor
      · intro h; exact absurd h (by simp)
      · intro h
        exfalso
        nlinarith [mul_nonpos_of_nonpos_of_nonneg (le_of_lt hcr) hs]
    · simp only [hc, if_false, ha, if_false]
      have har : (a : ℝ) < 0 := by
        have := not_le.mp ha; exact_mod_cast this
      have hcs : (c : ℝ) * Real.sqrt d ≤ 0 :=
        mul_nonpos_of_nonpos_of_nonneg (le_of_lt hcr) hs
      constructor
      · intro h
        have h' : (c : ℝ) ^ 2 * d < (a : ℝ) ^ 2 := by
          have := of_decide_eq_true h; exact_mod_cast this
        nlinarith
      · intro h
        apply decide_eq_true
        have h1 : (0 : ℝ) < c * Real.sqrt d - a := by linarith
        have h2 : (0 : ℝ) < -a - c * Real.sqrt d := by linarith
        have key := mul_pos h1 h2
        have h' : (c : ℝ) ^ 2 * d < (a : ℝ) ^ 2 := by nlinarith [key, hsq]
        exact_mod_cast h'

theorem sqrtLtQ_iff (c d a : ℚ) (hd : 0 ≤ d) :
    sqrtLtQ c d a = true ↔ (c : ℝ) * Real.sqrt d < a := by
  have hs : 0 ≤ Real.sqrt (d : ℝ) := Real.sqrt_nonneg _
  have hsq : Real.sqrt (d : ℝ) ^ 2 = (d : ℝ) := Real.sq_sqrt (by exact_mod_cast hd)
  unfold sqrtLtQ
  by_cases hc : (0 : ℚ) ≤ c
  · have hcr : (0 : ℝ) ≤ (c : ℝ) := by exact_mod_cast hc
    by_cases ha : a ≤ (0 : ℚ)
    · simp only [hc, if_true, ha]
      have har : (a : ℝ) ≤ 0 := by exact_mod_cast ha
      constructor
      · intro h; exact absurd h (by simp)
      · intro h
        exfalso
        nlinarith [mul_nonneg hcr hs]
    · simp only [hc, if_true, ha, if_false]
      have har : (0 : ℝ) < (a : ℝ) := by
        have := not_le.mp ha; exact_mod_cast this
      constructor
      · intro h
        have h' : (c : ℝ) ^ 2 * d < (a : ℝ) ^ 2 := by
          have := of_decide_eq_true h; exact_mod_cast this
        nlinarith [mul_nonneg hcr hs]
      · intro h
        apply decide_eq_true
        have h1 : (0 : ℝ) < a - c * Real.sqrt d := by linarith
        have h2 : (0 : ℝ) < a + c * Real.sqrt d := by nlinarith [mul_nonneg hcr hs]
        have key := mul_pos h1 h2
        have h' : (c : ℝ) ^ 2 * d < (a : ℝ) ^ 2 := by nlinarith [key, hsq]
        exact_mod_cast h'
  · have hcr : (c : ℝ) < 0 := by
      have := not_le.mp hc; exact_mod_cast this
    by_cases ha : (0 : ℚ) < a
    · simp only [hc, if_false, ha, if_true]
      have har : (0 : ℝ) < (a : ℝ) := by exact_mod_cast ha
      have : (c : ℝ) * Real.sqrt d < a := by nlinarith
      simp [this]
    · simp only [hc, if_false, ha, if_false]
      have har : (a : ℝ) ≤ 0 := by
        have := not_lt.mp ha; exact_mod_cast this
      have hcs : (c : ℝ) * Real.sqrt d ≤ 0 :=
        mul_nonpos_of_nonpos_of_nonneg (le_of_lt hcr) hs
      constructor
      · intro h
        have h' : (a : ℝ) ^ 2 < (c : ℝ) ^ 2 * d := by
          have := of_decide_eq_true h; exact_mod_cast this
        by_contra hcon
        have hle : (a : ℝ) ≤ c * Real.sqrt d := not_lt.mp hcon
        have h1 : (0 : ℝ) ≤ c * Real.sqrt d - a := by linarith
        have h2 : (0 : ℝ) ≤ -a - c * Real.sqrt d := by linarith
        have key := mul_nonneg h1 h2
        nlinarith [key, hsq]
      · intro h
        apply decide_eq_true
        have h' : (a : ℝ) ^ 2 < (c : ℝ) ^ 2 * d := by nlinarith
        exact_mod_cast h'

/-- Helper: one worker step conserves `capital + Σ buy costs - Σ sell proceeds`. -/
theorem workerStep_conservation (C : ℚ) (n : ℕ) (sym : String)
    (st : EngineState × LiveState) (ts : ℕ) (p : ℚ) (s : ℤ) :
    (BacktestEngine.workerStep C n sym st ts p s).1.capital
        + (((BacktestEngine.workerStep C n sym st ts p s).1.trades.map BacktestEngine.buyCost).sum
            - ((BacktestEngine.workerStep C n sym st ts p s).1.trades.map BacktestEngine.sellProceeds).sum)
      = st.1.capital + ((st.1.trades.map BacktestEngine.buyCost).sum
            - (st.1.trades.map BacktestEngine.sellProceeds).sum) := by
  unfold BacktestEngine.workerStep
  by_cases h1 : s = 1
  · simp [h1, BacktestEngine.buyCost, BacktestEngine.sellProceeds]
    ring
  · by_cases h2 : s = -1
    · simp [h1, h2, BacktestEngine.buyCost, BacktestEngine.sellProceeds]
      ring
    · simp [h1, h2]

/-- Helper: a whole worker run conserves `capital + Σ buy costs - Σ sell proceeds`. -/
theorem worker_conservation (C : ℚ) (n : ℕ) (sym : String) :
    ∀ (bars : List (ℕ × ℚ × ℤ)) (st : EngineState × LiveState),
    (BacktestEngine.worker C n sym st bars).1.capital
        + (((BacktestEngine.worker C n sym st bars).1.trades.map BacktestEngine.buyCost).sum
            - ((BacktestEngine.worker C n sym st bars).1.trades.map BacktestEngine.sellProceeds).sum)
      = st.1.capital + ((st.1.trades.map BacktestEngine.buyCost).sum
            - (st.1.trades.map BacktestEngine.sellProceeds).sum)
  | [], _ => rfl
  | b :: bs, st => by
      rw [BacktestEngine.worker,
        worker_conservation C n sym bs (BacktestEngine.workerStep C n sym st b.1 b.2.1 b.2.2),
        workerStep_conservation]

/-- C1 (counterexample): with two symbols and initial capital 10000, a BUY at
price 100 spends `min(capital, 10000 / (2 // 2)) = 10000` — the entire shared
pool — and buys 100 shares, not the evenly-split local cash
`10000 / 2 = 5000` (50 shares) the claim describes; and a SELL with
`state.shares = 2` adds `2 * price` to the pool and leaves `state.shares = 2`,
not 0. -/
theorem c1_counterexample :
    (BacktestEngine.workerStep 10000 2 "A" (⟨10000, [], []⟩, {}) 0 100 1).1.trades
        = [⟨.buy, 100, 0, "A", 100, 10000⟩]
      ∧ BacktestEngine.specEvenAllocation 10000 2 = 5000
      ∧ (10000 : ℚ) ≠ 5000
      ∧ (BacktestEngine.workerStep 10000 2 "B" (⟨10000, [], []⟩, { shares := 2 }) 5 3 (-1)).1.capital
          = 10006
      ∧ (BacktestEngine.workerStep 10000 2 "B" (⟨10000, [], []⟩, { shares := 2 }) 5 3 (-1)).2.shares
          = 2
      ∧ (2 : ℚ) ≠ 0 := by
  refine ⟨?_, ?_, ?_, ?_, ?_, ?_⟩ <;>
    norm_num [BacktestEngine.workerStep, BacktestEngine.allocation,
      BacktestEngine.specEvenAllocation]

/-- C1 (amended): capital is one engine-wide pool shared by every worker.  On
a BUY signal the worker spends `trade_amt = min(shared capital, allocation)`
where the allocation is `initial_capital / (symbolCount // 2)` for more than
one symbol and `initial_capital` otherwise, buying `trade_amt / price` shares;
on a SELL it adds `state.shares * price` to the pool, leaving `state.shares`
(which the engine never writes) unchanged; over any run,
`capital + Σ buy costs - Σ sell proceeds` is conserved. -/
theorem c1_amended (C : ℚ) (n : ℕ) (sym : String) (es : EngineState)
    (live : LiveState) (ts : ℕ) (p : ℚ) (bars : List (ℕ × ℚ × ℤ)) :
    (BacktestEngine.workerStep C n sym (es, live) ts p 1).1.capital
        = es.capital - min es.capital (BacktestEngine.allocation C n)
      ∧ (BacktestEngine.workerStep C n sym (es, live) ts p 1).1.trades
          = es.trades ++ [⟨.buy, p, ts, sym,
              min es.capital (BacktestEngine.allocation C n) / p,
              min es.capital (BacktestEngine.allocation C n)⟩]
      ∧ (BacktestEngine.workerStep C n sym (es, live) ts p 1).2 = live
      ∧ (BacktestEngine.workerStep C n sym (es, live) ts p (-1)).1.capital
          = es.capital + live.shares * p
      ∧ (BacktestEngine.workerStep C n sym (es, live) ts p (-1)).2.shares = live.shares
      ∧ (BacktestEngine.worker C n sym ((⟨C, [], []⟩ : EngineState), live) bars).1.capital
          = C - ((BacktestEngine.worker C n sym ((⟨C, [], []⟩ : EngineState), live) bars).1.trades.map
                  BacktestEngine.buyCost).sum
              + ((BacktestEngine.worker C n sym ((⟨C, [], []⟩ : EngineState), live) bars).1.trades.map
                  BacktestEngine.sellProceeds).sum := by
  refine ⟨by simp [BacktestEngine.workerStep], by simp [BacktestEngine.workerStep],
    by simp [BacktestEngine.workerStep], by simp [BacktestEngine.workerStep],
    by simp [BacktestEngine.workerStep], ?_⟩
  have h := worker_conservation C n sym bars ((⟨C, [], []⟩ : EngineState), live)
  simp at h
  linarith

/-- C2 (counterexample): a single-symbol BUY of the whole pool (10000 at
price 100, i.e. 100 shares) records the equity point value 0 — the shared
capital after the trade — whereas local cash plus shares times price is
`0 + 100 * 100 = 10000`. -/
theorem c2_counterexample :
    (BacktestEngine.workerStep 10000 1 "A" (⟨10000, [], []⟩, {}) 0 100 1).1.equity_curve
        = [(0, 0)]
      ∧ ((BacktestEngine.workerStep 10000 1 "A" (⟨10000, [], []⟩, {}) 0 100 1).1.trades.map
          TradeRec.shares) = [100]
      ∧ (0 : ℚ) ≠ 0 + 100 * 100 := by
  refine ⟨?_, ?_, ?_⟩ <;>
    norm_num [BacktestEngine.workerStep, BacktestEngine.allocation]

/-- C2 (amended): the equity point a worker appends at each bar records the
engine-wide shared capital after any trade of that bar; the position value
(`shares * price`) is not added. -/
theorem c2_amended (C : ℚ) (n : ℕ) (sym : String) (es : EngineState)
    (live : LiveState) (ts : ℕ) (p : ℚ) (s : ℤ) :
    (BacktestEngine.workerStep C n sym (es, live) ts p s).1.equity_curve
      = es.equity_curve
          ++ [(ts, (BacktestEngine.workerStep C n sym (es, live) ts p s).1.capital)] := by
  unfold BacktestEngine.workerStep
  by_cases h1 : s = 1
  · simp [h1]
  · by_cases h2 : s = -1 <;> simp [h1, h2]

/-- Helper: filtering a duplicate-free list for one key yields that key once
or not at all. -/
theorem filter_eq_singleton_of_nodup (t : ℕ) :
    ∀ (l : List ℕ), l.Nodup → l.filter (fun x => x = t) = if t ∈ l then [t] else []
  | [], _ => by simp
  | a :: l, h => by
    obtain ⟨ha, hl⟩ := List.nodup_cons.mp h
    by_cases hat : a = t
    · subst hat
      rw [List.filter_cons_of_pos (by simp), filter_eq_singleton_of_nodup a l hl,
        if_neg ha, if_pos (List.mem_cons_self a l)]
    · rw [List.filter_cons_of_neg (by simp [hat]), filter_eq_singleton_of_nodup t l hl]
      by_cases htl : t ∈ l
      · rw [if_pos htl, if_pos (List.mem_cons_of_mem a htl)]
      · rw [if_neg htl, if_neg (by simp [List.mem_cons, htl]; exact fun h => hat h.symm)]

/-- C3 (counterexample): two workers reporting equity 5 and 7 at the same
timestamp consolidate to the last-appended value (7, or 5 under the opposite
thread interleaving), never to the per-timestamp sum 12 the claim describes. -/
theorem c3_counterexample :
    BacktestEngine.consolidate [(0, 5), (0, 7)] = [(0, 7)]
      ∧ BacktestEngine.consolidate [(0, 7), (0, 5)] = [(0, 5)]
      ∧ BacktestEngine.specConsolidateSum [(0, 5), (0, 7)] = [(0, 12)]
      ∧ (7 : ℚ) ≠ 12 ∧ (5 : ℚ) ≠ 12 := by
  refine ⟨by decide, by decide, ?_, by norm_num, by norm_num⟩
  norm_num [BacktestEngine.specConsolidateSum, List.dedup_cons_of_mem, List.insertionSort]

/-- C3 (amended): `BacktestEngine.run` consolidates the equity curve by
keeping, for each timestamp, the LAST equity value appended at that timestamp
(`groupby(level=0).last()`), not the sum across workers. -/
theorem c3_amended (eq : List (ℕ × ℚ)) (t : ℕ) :
    (BacktestEngine.consolidate eq).filter (fun q => q.1 = t)
      = if t ∈ eq.map Prod.fst
          then [(t, ((eq.filter (fun q => q.1 = t)).map Prod.snd).getLastD 0)]
          else [] := by
  unfold BacktestEngine.consolidate
  rw [List.filter_map]
  have hperm := List.perm_insertionSort (· ≤ ·) ((eq.map Prod.fst).dedup)
  have hnd : (List.insertionSort (· ≤ ·) ((eq.map Prod.fst).dedup)).Nodup :=
    (hperm.nodup_iff).mpr ((eq.map Prod.fst).nodup_dedup)
  have hcomp :
      ((fun q : ℕ × ℚ => decide (q.1 = t))
          ∘ (fun u => (u, ((eq.filter (fun q => q.1 = u)).map Prod.snd).getLastD 0)))
        = fun u => decide (u = t) := rfl
  rw [hcomp,
    filter_eq_singleton_of_nodup t (List.insertionSort (· ≤ ·) ((eq.map Prod.fst).dedup)) hnd]
  have hmemiff : (t ∈ List.insertionSort (· ≤ ·) ((eq.map Prod.fst).dedup))
      ↔ t ∈ eq.map Prod.fst := by
    rw [hperm.mem_iff, List.mem_dedup]
  by_cases hm : t ∈ eq.map Prod.fst
  · rw [if_pos (hmemiff.mpr hm), if_pos hm]
    rfl
  · rw [if_neg (fun h => hm (hmemiff.mp h)), if_neg hm]
    rfl

/-- Helper: the signal produced by the decision body of `BuyLow.on_bar` is
one of {+1, 0, -1}; a BUY needs a flat position and a SELL a long one. -/
theorem onBarCore_signal (cfg : BuyLowCfg) (st : SymbolState) :
    ((BuyLow.onBarCore cfg st).1 = 1 ∨ (BuyLow.onBarCore cfg st).1 = 0
        ∨ (BuyLow.onBarCore cfg st).1 = -1)
      ∧ (st.pos = 1 → (BuyLow.onBarCore cfg st).1 ≠ 1)
      ∧ (st.pos = 0 → (BuyLow.onBarCore cfg st).1 ≠ -1) := by
  simp only [BuyLow.onBarCore]
  refine ⟨?_, ?_, ?_⟩ <;> split_ifs <;> simp_all

/-- C10: with `use_regime` enabled (the default), as soon as the
history of a symbol is longer than the configured timeframe window, `BuyLow.on_bar`
evaluates `self.regime_detector.calculate(...)`; `RegimeDetector` defines an
`on_bar` method but no `calculate`, so the attribute lookup raises
`AttributeError` before any signal is produced. -/
theorem c10_regime_attribute_error (cfg : BuyLowCfg)
    (trendOf : List ℚ → TrendDirection) (st : SymbolState) (close : ℚ)
    (hreg : cfg.use_regime = true)
    (hlen : cfg.timeframe_minutes < (st.history ++ [close]).length) :
    ("calculate" ∉ RegimeDetector.methods)
      ∧ BuyLow.onBar cfg trendOf st close = .error .attributeError := by
  refine ⟨by decide, ?_⟩
  unfold BuyLow.onBar
  rw [if_neg (not_le.mpr hlen), if_pos hreg]

/-- C10 (witness): concrete instance — timeframe 2, post-append history of
length 3, default `use_regime`. -/
theorem c10_witness :
    (({ timeframe_minutes := 2 } : BuyLowCfg).use_regime = true)
      ∧ (({ timeframe_minutes := 2 } : BuyLowCfg).timeframe_minutes
          < ((({ history := [1, 1] } : SymbolState).history ++ [1]).length))
      ∧ (("calculate" ∉ RegimeDetector.methods)
          ∧ BuyLow.onBar { timeframe_minutes := 2 } (fun _ => .flat)
              { history := [1, 1] } 1 = .error .attributeError) :=
  ⟨rfl, by decide,
    c10_regime_attribute_error { timeframe_minutes := 2 } (fun _ => .flat)
      { history := [1, 1] } 1 rfl (by decide)⟩

/-- C4 (counterexample): under the default configuration (`use_regime=True`),
a bar that completes the warm-up (history longer than the timeframe window)
makes `BuyLow.on_bar` raise `AttributeError`, so that bar yields none of
BUY/SELL/HOLD. -/
theorem c4_counterexample :
    BuyLow.onBar { timeframe_minutes := 2 } (fun _ => .up) { history := [2, 3] } 4
      = .error .attributeError := by decide

/-- C4 (amended): whenever `BuyLow.on_bar` returns normally it yields exactly
one of BUY(+1)/SELL(-1)/HOLD(0), never BUY while the position is LONG and
never SELL while it is FLAT; and with `use_regime = false` every bar returns
normally. -/
theorem c4_amended :
    (∀ (cfg : BuyLowCfg) (trendOf : List ℚ → TrendDirection) (st : SymbolState)
        (close : ℚ) (s : ℤ) (st' : SymbolState),
      BuyLow.onBar cfg trendOf st close = .ok (s, st') →
        (s = 1 ∨ s = 0 ∨ s = -1) ∧ (st.pos = 1 → s ≠ 1) ∧ (st.pos = 0 → s ≠ -1))
    ∧ (∀ (cfg : BuyLowCfg) (trendOf : List ℚ → TrendDirection) (st : SymbolState)
        (close : ℚ), cfg.use_regime = false →
          (BuyLow.onBar cfg trendOf st close).isOk = true) := by
  constructor
  · intro cfg trendOf st close s st' h
    unfold BuyLow.onBar at h
    by_cases hlen : (st.history ++ [close]).length ≤ cfg.timeframe_minutes
    · rw [if_pos hlen] at h
      simp only [Except.ok.injEq, Prod.mk.injEq] at h
      obtain ⟨hs, _⟩ := h
      subst hs
      exact ⟨Or.inr (Or.inl rfl), fun _ => by decide, fun _ => by decide⟩
    · rw [if_neg hlen] at h
      by_cases hreg : cfg.use_regime = true
      · rw [if_pos hreg] at h
        exact absurd h (by simp)
      · rw [if_neg hreg] at h
        simp only [Except.ok.injEq] at h
        have hcore := onBarCore_signal cfg
          (if cfg.use_trend = true
            then { st with history := st.history ++ [close], current_trend := trendOf (st.history ++ [close]) }
            else { st with history := st.history ++ [close] })
        rw [h] at hcore
        by_cases htr : cfg.use_trend = true <;> simp only [htr, if_true, if_false] at hcore <;>
          exact hcore
  · intro cfg trendOf st close hreg
    unfold BuyLow.onBar
    by_cases hlen : (st.history ++ [close]).length ≤ cfg.timeframe_minutes
    · rw [if_pos hlen]; rfl
    · rw [if_neg hlen, if_neg (by simp [hreg])]; rfl

/-- C4 (witness): a warm-up bar with `use_regime` off returns normally with
signal HOLD from a flat position, and the invariant instance holds. -/
theorem c4_witness :
    (((0 : ℤ) = 1 ∨ (0 : ℤ) = 0 ∨ (0 : ℤ) = -1)
        ∧ ((({ history := [] } : SymbolState).pos = 1 → (0 : ℤ) ≠ 1))
        ∧ ((({ history := [] } : SymbolState).pos = 0 → (0 : ℤ) ≠ -1)))
      ∧ (BuyLow.onBar { use_regime := false } (fun _ => .flat)
          { history := [] } 5).isOk = true :=
  ⟨c4_amended.1 { use_regime := false } (fun _ => .flat) { history := [] } 5 0
      { history := [5] } (by decide),
    c4_amended.2 { use_regime := false } (fun _ => .flat) { history := [] } 5 rfl⟩

/-- Helper: with a LONG position and a non-degenerate rolling std, the
decision body sells exactly when one of the two exit comparisons fires. -/
theorem onBarCore_sell_iff (cfg : BuyLowCfg) (st : SymbolState)
    (hpos : st.pos = 1)
    (hfloor : ¬(popVar (BuyLow.lookbackPrices cfg st.history) < 1 / 1000000000000)) :
    ((BuyLow.onBarCore cfg st).1 = -1
      ↔ (qltSqrt (st.history.getLastD 0 - st.entry_price)
            (-(BuyLow.adjustedThresholds cfg st.current_regime).2.2) st.entry_var = true
          ∨ sqrtLtQ (BuyLow.adjustedThresholds cfg st.current_regime).2.1 st.entry_var
              (st.history.getLastD 0 - st.entry_price) = true)) := by
  simp only [BuyLow.onBarCore]
  rw [if_neg hfloor, if_neg (by simp [hpos])]
  split_ifs with h1 h2 h3 h4 <;> simp_all

/-- C5: in the regime-adjusted decision logic of `BuyLow.on_bar`, an EXTREME
classification with a FLAT position always yields HOLD regardless of the
z-score, and with a LONG position the exit and stop-loss thresholds are the
base thresholds widened by 1.5: a SELL fires exactly when the price sits more
than `1.5 * stop_loss` entry-stds below or more than `1.5 * exit` entry-stds
above the entry price.  (Stated on the decision body `onBarCore`; reaching it
with `use_regime` on requires the regime update whose failure C10 records.) -/
theorem c5_extreme_regime (cfg : BuyLowCfg) (st : SymbolState)
    (hadj : cfg.regime_adjust = true) (hreg : cfg.use_regime = true)
    (hx : st.current_regime = .extreme) :
    (st.pos = 0 → (BuyLow.onBarCore cfg st).1 = 0)
      ∧ (BuyLow.adjustedThresholds cfg .extreme
          = (cfg.entry_factor, cfg.exit_factor * (3 / 2), cfg.stop_loss * (3 / 2)))
      ∧ (st.pos = 1 → 0 ≤ st.entry_var →
          ¬(popVar (BuyLow.lookbackPrices cfg st.history) < 1 / 1000000000000) →
          ((BuyLow.onBarCore cfg st).1 = -1
            ↔ ((st.history.getLastD 0 : ℝ) - (st.entry_price : ℝ)
                  < -((cfg.stop_loss : ℝ) * (3 / 2)) * Real.sqrt (st.entry_var : ℝ)
                ∨ (cfg.exit_factor : ℝ) * (3 / 2) * Real.sqrt (st.entry_var : ℝ)
                  < (st.history.getLastD 0 : ℝ) - (st.entry_price : ℝ)))) := by
  have hthr : BuyLow.adjustedThresholds cfg .extreme
      = (cfg.entry_factor, cfg.exit_factor * (3 / 2), cfg.stop_loss * (3 / 2)) := by
    simp [BuyLow.adjustedThresholds, hadj, hreg]
  refine ⟨?_, hthr, ?_⟩
  · intro hpos
    simp only [BuyLow.onBarCore]
    split_ifs with h1 h2 <;> simp_all
  · intro hpos hev hfloor
    rw [onBarCore_sell_iff cfg st hpos hfloor, hx, hthr]
    rw [qltSqrt_iff _ _ _ hev, sqrtLtQ_iff _ _ _ hev]
    push_cast
    constructor
    · rintro (h | h)
      · exact Or.inl (by linarith)
      · exact Or.inr (by linarith)
    · rintro (h | h)
      · exact Or.inl (by linarith)
      · exact Or.inr (by linarith)

/-- C5 (witness): concrete EXTREME-and-flat state — the bar yields HOLD. -/
theorem c5_witness :
    (({ timeframe_minutes := 2 } : BuyLowCfg).regime_adjust = true)
      ∧ (({ timeframe_minutes := 2 } : BuyLowCfg).use_regime = true)
      ∧ (({ history := [10, 20, 1], current_regime := .extreme } : SymbolState).current_regime
          = .extreme)
      ∧ (({ history := [10, 20, 1], current_regime := .extreme } : SymbolState).pos = 0 →
          (BuyLow.onBarCore { timeframe_minutes := 2 }
            { history := [10, 20, 1], current_regime := .extreme }).1 = 0) :=
  ⟨rfl, rfl, rfl,
    (c5_extreme_regime { timeframe_minutes := 2 }
      { history := [10, 20, 1], current_regime := .extreme } rfl rfl rfl).1⟩

/-- C7 (counterexample): three bars on which the cooldown is not decremented
by one: a warm-up bar (history not yet longer than the timeframe window)
leaves it unchanged; a bar whose rolling std is below the 1e-6 floor leaves
it unchanged; and an entry bar resets it to the cooldown period 30. -/
theorem c7_counterexample :
    (BuyLow.onBar
        { entry_factor := 1, timeframe_minutes := 2, use_regime := false,
          regime_adjust := false, use_trend := false } (fun _ => .flat)
        { history := [], cooldown := 5 } 1
      = .ok (0, { history := [1], cooldown := 5 }))
    ∧ ((5 : ℤ) ≠ 5 - 1)
    ∧ (BuyLow.onBar
        { entry_factor := 1, timeframe_minutes := 2, use_regime := false,
          regime_adjust := false, use_trend := false } (fun _ => .flat)
        { history := [1, 1], cooldown := 5 } 1
      = .ok (0, { history := [1, 1, 1], cooldown := 5 }))
    ∧ (BuyLow.onBar
        { entry_factor := 1, timeframe_minutes := 2, use_regime := false,
          regime_adjust := false, use_trend := false } (fun _ => .flat)
        { history := [10, 20], cooldown := 0 } 1
      = .ok (1, { history := [10, 20, 1], entry_price := 1, pos := 1,
                  entry_var := 25, cooldown := 30 }))
    ∧ ((30 : ℤ) ≠ 0 - 1) := by
  refine ⟨by decide, by decide, ?_, ?_, by decide⟩
  · norm_num [BuyLow.onBar, BuyLow.onBarCore, BuyLow.lookbackPrices, trailing,
      listMean, popVar, BuyLow.adjustedThresholds]
  · norm_num [BuyLow.onBar, BuyLow.onBarCore, BuyLow.lookbackPrices, trailing,
      listMean, popVar, BuyLow.adjustedThresholds, qltSqrt, sqrtLtQ]

/-- C7 (amended): the cooldown tick happens only on bars that reach it — once
the history is long enough, the rolling std is at least the 1e-6 floor, and
the bar is not refused by the EXTREME-while-flat branch.  On such bars the
cooldown becomes `cooldown - 1` (which may go negative), except on entry bars
where it is reset to the cooldown period 30; entries are only taken when the
decremented cooldown is ≤ 0. -/
theorem c7_amended (cfg : BuyLowCfg) (st : SymbolState)
    (hfloor : ¬(popVar (BuyLow.lookbackPrices cfg st.history) < 1 / 1000000000000))
    (hnx : ¬(cfg.regime_adjust = true ∧ cfg.use_regime = true
              ∧ st.current_regime = .extreme ∧ st.pos = 0)) :
    ((BuyLow.onBarCore cfg st).2.cooldown
        = if (BuyLow.onBarCore cfg st).1 = 1 then 30 else st.cooldown - 1)
      ∧ ((BuyLow.onBarCore cfg st).1 = 1 → st.cooldown - 1 ≤ 0) := by
  simp only [BuyLow.onBarCore]
  rw [if_neg hfloor,
    if_neg (by simp only [Bool.and_eq_true, decide_eq_true_eq, and_assoc]; exact hnx)]
  split_ifs with h1 h2 h3 h4 <;> simp_all

/-- C7 (witness): concrete instance of the amended cooldown behaviour. -/
theorem c7_witness :
    (¬(popVar (BuyLow.lookbackPrices { timeframe_minutes := 2, use_regime := false }
          ({ history := [10, 20, 1], cooldown := 5 } : SymbolState).history)
        < 1 / 1000000000000))
      ∧ (¬(({ timeframe_minutes := 2, use_regime := false } : BuyLowCfg).regime_adjust = true
            ∧ ({ timeframe_minutes := 2, use_regime := false } : BuyLowCfg).use_regime = true
            ∧ ({ history := [10, 20, 1], cooldown := 5 } : SymbolState).current_regime = .extreme
            ∧ ({ history := [10, 20, 1], cooldown := 5 } : SymbolState).pos = 0))
      ∧ ((BuyLow.onBarCore { timeframe_minutes := 2, use_regime := false }
            { history := [10, 20, 1], cooldown := 5 }).2.cooldown
          = if (BuyLow.onBarCore { timeframe_minutes := 2, use_regime := false }
                  { history := [10, 20, 1], cooldown := 5 }).1 = 1
              then 30 else (5 : ℤ) - 1)
      ∧ ((BuyLow.onBarCore { timeframe_minutes := 2, use_regime := false }
            { history := [10, 20, 1], cooldown := 5 }).1 = 1 → (5 : ℤ) - 1 ≤ 0) := by
  have hfloor : ¬(popVar (BuyLow.lookbackPrices
      { timeframe_minutes := 2, use_regime := false }
      ({ history := [10, 20, 1], cooldown := 5 } : SymbolState).history)
        < 1 / 1000000000000) := by
    norm_num [BuyLow.lookbackPrices, trailing, popVar, listMean]
  have hnx : ¬(({ timeframe_minutes := 2, use_regime := false } : BuyLowCfg).regime_adjust = true
      ∧ ({ timeframe_minutes := 2, use_regime := false } : BuyLowCfg).use_regime = true
      ∧ ({ history := [10, 20, 1], cooldown := 5 } : SymbolState).current_regime = .extreme
      ∧ ({ history := [10, 20, 1], cooldown := 5 } : SymbolState).pos = 0) := by
    simp
  exact ⟨hfloor, hnx,
    (c7_amended { timeframe_minutes := 2, use_regime := false }
      { history := [10, 20, 1], cooldown := 5 } hfloor hnx).1,
    (c7_amended { timeframe_minutes := 2, use_regime := false }
      { history := [10, 20, 1], cooldown := 5 } hfloor hnx).2⟩

/-- C6 (counterexample): on the all-positive price history [1, 2] the
regime detector computes the simple return 1 (`np.diff / prices[:-1]`,
regimes.py line 58), not the log return `log 2` the claim describes — there
is no log-return path in `RegimeDetector.on_bar` at all. -/
theorem c6_counterexample :
    RegimeDetector.regimeReturns 1 [1, 2] = [1]
      ∧ RegimeDetector.specLogReturns 1 [1, 2] = [Real.log 2]
      ∧ ((1 : ℚ) : ℝ) ≠ Real.log 2 := by
  refine ⟨?_, ?_, ?_⟩
  · norm_num [RegimeDetector.regimeReturns, simpleReturns, trailing]
  · simp [RegimeDetector.specLogReturns, trailing, simpleReturns]
  · have h := Real.log_two_lt_d9
    push_cast
    intro hc
    rw [← hc] at h
    norm_num at h

/-- C6 (amended): the volatility regime detector computes SIMPLE returns
(`np.diff(prices) / prices[:-1]`) over the trailing regime window regardless
of price sign, takes the current volatility as the population std of those
returns times `sqrt(252 * 390)`, and returns NORMAL whenever the history has
at least `regime_window + 1` bars but fewer than `lookback_window`. -/
theorem c6_amended (cfg : RegimeDetector.Cfg) (history : List ℚ)
    (h1 : cfg.regime_window + 1 ≤ history.length)
    (h2 : history.length < cfg.lookback_window) :
    RegimeDetector.onBar cfg history
      = (.normal,
          some (Real.sqrt (popVar (simpleReturns (trailing (cfg.regime_window + 1) history)))
            * Real.sqrt (252 * 390))) := by
  unfold RegimeDetector.onBar RegimeDetector.currentVol RegimeDetector.regimeReturns
  rw [if_neg (by omega), if_pos h2]

/-- C6 (witness): regime window 1, lookback 5, two bars of history. -/
theorem c6_witness :
    (({ lookback_window := 5, regime_window := 1 } : RegimeDetector.Cfg).regime_window + 1
        ≤ ([1, 2] : List ℚ).length)
      ∧ (([1, 2] : List ℚ).length
          < ({ lookback_window := 5, regime_window := 1 } : RegimeDetector.Cfg).lookback_window)
      ∧ RegimeDetector.onBar { lookback_window := 5, regime_window := 1 } [1, 2]
          = (.normal,
              some (Real.sqrt (popVar (simpleReturns (trailing 2 [1, 2])))
                * Real.sqrt (252 * 390))) :=
  ⟨by decide, by decide,
    c6_amended { lookback_window := 5, regime_window := 1 } [1, 2] (by decide) (by decide)⟩

/-- Helper: `getD` on a list whose elements are all `c` yields `c` in range. -/
theorem getD_all_eq (c d : ℝ) : ∀ (l : List ℝ), (∀ x ∈ l, x = c) →
    ∀ i, i < l.length → l.getD i d = c
  | [], _, i, hi => absurd hi (by simp)
  | a :: l, h, 0, _ => by simpa using h a (by simp)
  | a :: l, h, i + 1, hi => by
      rw [List.getD_cons_succ]
      exact getD_all_eq c d l (fun x hx => h x (List.mem_cons_of_mem a hx)) i
        (by simpa using hi)

/-- Helper: `np.percentile` of a constant sample is that constant, for any
percentile in [0, 100]. -/
theorem npPercentile_all_eq (l : List ℝ) (c : ℝ) (p : ℚ)
    (hmem : ∀ x ∈ l, x = c) (hlen : 1 ≤ l.length)
    (h0 : 0 ≤ p) (h100 : p ≤ 100) :
    npPercentile l p = c := by
  simp only [npPercentile]
  have hperm := List.perm_insertionSort ((· ≤ ·) : ℝ → ℝ → Prop) l
  have hslen : (List.insertionSort (· ≤ ·) l).length = l.length := hperm.length_eq
  have hsmem : ∀ x ∈ List.insertionSort (· ≤ ·) l, x = c := fun x hx =>
    hmem x (hperm.mem_iff.mp hx)
  set n := l.length with hn
  rw [hslen]
  set h : ℝ := (p : ℝ) / 100 * ((n : ℝ) - 1) with hh
  have hp0 : (0 : ℝ) ≤ (p : ℝ) := by exact_mod_cast h0
  have hp100 : (p : ℝ) ≤ 100 := by exact_mod_cast h100
  have hn1 : (1 : ℝ) ≤ (n : ℝ) := by exact_mod_cast hlen
  have hh0 : 0 ≤ h := mul_nonneg (by positivity) (by linarith)
  have hhle : h ≤ (n : ℝ) - 1 := by nlinarith
  have hfl : (⌊h⌋ : ℝ) ≤ (n : ℝ) - 1 := le_trans (Int.floor_le h) hhle
  have hilt : ⌊h⌋.toNat < n := by
    have h1 : (⌊h⌋ : ℝ) < (n : ℝ) := by linarith
    have h2 : ⌊h⌋ < (n : ℤ) := by exact_mod_cast h1
    omega
  have hmin : min (⌊h⌋.toNat + 1) (n - 1) < n := by omega
  rw [getD_all_eq c 0 _ hsmem _ (by rw [hslen]; exact hilt),
    getD_all_eq c 0 _ hsmem _ (by rw [hslen]; exact hmin)]
  ring

/-- Helper: the sample mean of an all-zero return series is 0. -/
theorem listMean_replicate_zero (n : ℕ) : listMean (List.replicate n (0 : ℚ)) = 0 := by
  simp [listMean, List.sum_replicate]

/-- Helper: the sample variance of an all-zero return series is 0. -/
theorem sampleVar_replicate_zero (n : ℕ) : sampleVar (List.replicate n (0 : ℚ)) = 0 := by
  unfold sampleVar
  split_ifs
  · rfl
  · simp [listMean_replicate_zero, List.map_replicate, List.sum_replicate]

/-- Helper: with all-zero historical returns every simulated path is constant
at the initial value, whatever the random draws. -/
theorem finalValues_zero_returns (n num_days num_sims : ℕ) (z : ℕ → ℕ → ℝ) (iv : ℝ) :
    MonteCarloSimulator.finalValues (List.replicate n 0) z iv num_days num_sims
      = List.replicate num_sims iv := by
  have hrr : ∀ d s, MonteCarloSimulator.randomReturn (List.replicate n 0) z d s = 0 := by
    intro d s
    simp [MonteCarloSimulator.randomReturn, MonteCarloSimulator.sampleStd,
      sampleVar_replicate_zero, listMean_replicate_zero]
  have hpv : ∀ d s, MonteCarloSimulator.pathValue (List.replicate n 0) z iv d s = iv := by
    intro d s
    simp [MonteCarloSimulator.pathValue, hrr]
  apply List.eq_replicate.mpr
  refine ⟨by simp [MonteCarloSimulator.finalValues], ?_⟩
  intro b hb
  simp only [MonteCarloSimulator.finalValues, List.mem_map] at hb
  obtain ⟨s, _, hs⟩ := hb
  rw [← hs, hpv]

/-- C8 (counterexample): on an all-zero return series the percentile query
returns the initial value (1, the constructor default), not 0 as the claim
states — the percentile queries report final portfolio values, not losses. -/
theorem c8_counterexample :
    MonteCarloSimulator.getPercentiles
        (MonteCarloSimulator.finalValues (List.replicate 3 0) (fun _ _ => 37) 1 2 2) [50]
      = .ok [(50, 1)]
      ∧ (1 : ℝ) ≠ 0 := by
  constructor
  · rw [finalValues_zero_returns]
    simp only [MonteCarloSimulator.getPercentiles]
    rw [if_neg (by norm_num)]
    rw [npPercentile_all_eq (List.replicate 2 1) 1 50
      (fun x hx => List.eq_of_mem_replicate hx) (by norm_num) (by norm_num) (by norm_num)]
  · norm_num

/-- C8 (amended): if `MonteCarloSimulator` is constructed with a return
series of at least two zeros (zero variance) and run, the final value of every path equals `initial_value` exactly for any random draws; every percentile
query returns `initial_value` (not 0), and the VaR and CVaR queries at any
confidence level in (0, 1) return 0. -/
theorem c8_amended (n num_days num_sims : ℕ) (z : ℕ → ℕ → ℝ) (iv : ℝ) (p conf : ℚ)
    (hn : 2 ≤ n) (hsims : 1 ≤ num_sims) (hiv : 0 < iv)
    (hp0 : 0 ≤ p) (hp100 : p ≤ 100) (hc0 : 0 < conf) (hc1 : conf < 1) :
    (MonteCarloSimulator.finalValues (List.replicate n 0) z iv num_days num_sims
        = List.replicate num_sims iv)
      ∧ npPercentile
          (MonteCarloSimulator.finalValues (List.replicate n 0) z iv num_days num_sims) p = iv
      ∧ MonteCarloSimulator.calculateVar
          (MonteCarloSimulator.finalValues (List.replicate n 0) z iv num_days num_sims) iv conf
          = .ok 0
      ∧ MonteCarloSimulator.calculateCvar
          (MonteCarloSimulator.finalValues (List.replicate n 0) z iv num_days num_sims) iv conf
          = .ok 0 := by
  have hfv := finalValues_zero_returns n num_days num_sims z iv
  have hrep : ∀ x ∈ List.replicate num_sims iv, x = iv := fun x hx =>
    List.eq_of_mem_replicate hx
  have hrlen : 1 ≤ (List.replicate num_sims iv).length := by
    simpa using hsims
  have hq0 : (0 : ℚ) ≤ (1 - conf) * 100 := by nlinarith
  have hq100 : ((1 - conf) * 100 : ℚ) ≤ 100 := by nlinarith
  have hpc : npPercentile (List.replicate num_sims iv) ((1 - conf) * 100) = iv :=
    npPercentile_all_eq _ iv _ hrep hrlen hq0 hq100
  refine ⟨hfv, ?_, ?_, ?_⟩
  · rw [hfv]
    exact npPercentile_all_eq _ iv _ hrep hrlen hp0 hp100
  · rw [hfv]
    unfold MonteCarloSimulator.calculateVar
    rw [if_neg (not_not_intro ⟨hc0, hc1⟩), hpc]
    simp
  · rw [hfv]
    unfold MonteCarloSimulator.calculateCvar
    rw [if_neg (not_not_intro ⟨hc0, hc1⟩)]
    have hfilter : (List.replicate num_sims iv).filter (fun v => decide (v ≤ iv))
        = List.replicate num_sims iv := by
      apply List.filter_eq_self.mpr
      intro x hx
      rw [hrep x hx]
      exact decide_eq_true le_rfl
    have hpos : 0 < num_sims := lt_of_lt_of_le Nat.zero_lt_one hsims
    have hns : (num_sims : ℝ) ≠ 0 := by exact_mod_cast hpos.ne'
    simp only [hpc, hfilter, List.length_replicate, List.sum_replicate, nsmul_eq_mul]
    rw [if_neg (by omega), mul_div_cancel_left₀ iv hns]
    simp

/-- C8 (witness): concrete instance — two zero returns, two paths, one day,
initial value 1, percentile 50, confidence 1/2, nonzero random draws. -/
theorem c8_witness :
    (MonteCarloSimulator.finalValues (List.replicate 2 0) (fun _ _ => 37) 1 1 2
        = List.replicate 2 1)
      ∧ npPercentile
          (MonteCarloSimulator.finalValues (List.replicate 2 0) (fun _ _ => 37) 1 1 2) 50 = 1
      ∧ MonteCarloSimulator.calculateVar
          (MonteCarloSimulator.finalValues (List.replicate 2 0) (fun _ _ => 37) 1 1 2) 1 (1 / 2)
          = .ok 0
      ∧ MonteCarloSimulator.calculateCvar
          (MonteCarloSimulator.finalValues (List.replicate 2 0) (fun _ _ => 37) 1 1 2) 1 (1 / 2)
          = .ok 0 :=
  c8_amended 2 1 2 (fun _ _ => 37) 1 50 (1 / 2) (by norm_num) (by norm_num)
    (by norm_num) (by norm_num) (by norm_num) (by norm_num) (by norm_num)

/-- Helper: `get_percentiles` succeeds exactly when every requested
percentile lies in the closed interval [0, 100]. -/
theorem getPercentiles_isOk (fv : List ℝ) : ∀ (ps : List ℚ),
    (MonteCarloSimulator.getPercentiles fv ps).isOk = true
      ↔ ∀ p ∈ ps, 0 ≤ p ∧ p ≤ 100
  | [] => by simp [MonteCarloSimulator.getPercentiles, Except.isOk, Except.toBool]
  | p :: ps => by
      have hrec := getPercentiles_isOk fv ps
      simp only [MonteCarloSimulator.getPercentiles]
      by_cases h : ¬(0 ≤ p ∧ p ≤ 100)
      · rw [if_pos h]
        simp only [Except.isOk, Except.toBool, Bool.false_eq_true, false_iff,
          List.mem_cons]
        intro hall
        exact h (hall p (Or.inl rfl))
      · rw [if_neg h]
        rw [not_not] at h
        cases hx : MonteCarloSimulator.getPercentiles fv ps with
        | error e =>
            rw [hx] at hrec
            simp only [Except.isOk, Except.toBool, Bool.false_eq_true, false_iff] at hrec
            simp only [Except.isOk, Except.toBool, Bool.false_eq_true, false_iff,
              List.mem_cons]
            intro hall
            exact hrec fun q hq => hall q (Or.inr hq)
        | ok rest =>
            have hall : ∀ q ∈ ps, 0 ≤ q ∧ q ≤ 100 := by
              apply hrec.mp
              rw [hx]
              rfl
            simp only [Except.isOk, Except.toBool, List.mem_cons]
            constructor
            · intro _ q hq
              rcases hq with rfl | hq'
              · exact h
              · exact hall q hq'
            · intro _
              trivial

/-- C9 (counterexample): the percentile argument 0 lies outside the open
interval (0, 100), yet `get_percentiles` accepts it (the source validates
`0 <= p <= 100`, a closed interval) and returns a value instead of raising
InvalidParameter. -/
theorem c9_counterexample :
    ¬((0 : ℚ) < 0 ∧ (0 : ℚ) < 100)
      ∧ MonteCarloSimulator.getPercentiles [(1 : ℝ)] [0] = .ok [(0, 1)] := by
  constructor
  · norm_num
  · simp only [MonteCarloSimulator.getPercentiles]
    rw [if_neg (by norm_num)]
    rw [npPercentile_all_eq [(1 : ℝ)] 1 0 (by simp) (by simp) le_rfl (by norm_num)]

/-- C9 (amended): `get_percentiles` validates its percentile arguments
against the CLOSED interval [0, 100] (accepting the endpoints 0 and 100),
while `get_confidence_interval`, `calculate_var` and `calculate_cvar`
validate the confidence level against the open interval (0, 1), failing with
an InvalidParameter error exactly when the argument falls outside. -/
theorem c9_amended (fv : List ℝ) (iv : ℝ) (conf : ℚ) (ps : List ℚ) :
    ((MonteCarloSimulator.getPercentiles fv ps).isOk = true
        ↔ ∀ p ∈ ps, 0 ≤ p ∧ p ≤ 100)
      ∧ (MonteCarloSimulator.getConfidenceInterval fv conf = .error .invalidParameter
          ↔ ¬(0 < conf ∧ conf < 1))
      ∧ (MonteCarloSimulator.calculateVar fv iv conf = .error .invalidParameter
          ↔ ¬(0 < conf ∧ conf < 1))
      ∧ (MonteCarloSimulator.calculateCvar fv iv conf = .error .invalidParameter
          ↔ ¬(0 < conf ∧ conf < 1)) := by
  refine ⟨getPercentiles_isOk fv ps, ?_, ?_, ?_⟩
  · unfold MonteCarloSimulator.getConfidenceInterval
    split_ifs with h <;> simp [h]
  · unfold MonteCarloSimulator.calculateVar
    split_ifs with h <;> simp [h]
  · simp only [MonteCarloSimulator.calculateCvar]
    split_ifs with h h2 <;> simp [h]

/-- C9 (witness): concrete instance at `fv = [1]`, confidence 2, percentile
list [101]. -/
theorem c9_witness :
    ((MonteCarloSimulator.getPercentiles [(1 : ℝ)] [101]).isOk = true
        ↔ ∀ p ∈ ([101] : List ℚ), 0 ≤ p ∧ p ≤ 100)
      ∧ (MonteCarloSimulator.getConfidenceInterval [(1 : ℝ)] 2 = .error .invalidParameter
          ↔ ¬((0 : ℚ) < 2 ∧ (2 : ℚ) < 1))
      ∧ (MonteCarloSimulator.calculateVar [(1 : ℝ)] 1 2 = .error .invalidParameter
          ↔ ¬((0 : ℚ) < 2 ∧ (2 : ℚ) < 1))
      ∧ (MonteCarloSimulator.calculateCvar [(1 : ℝ)] 1 2 = .error .invalidParameter
          ↔ ¬((0 : ℚ) < 2 ∧ (2 : ℚ) < 1)) :=
  c9_amended [(1 : ℝ)] 1 2 [101]

end TradeSpec
